import Mathlib

/-!
Verification of the Mermaid syntax-fixing pipeline of this repository:
`webview-ui/src/services/mermaidSyntaxFixer.ts` (the `MermaidSyntaxFixer`
service) and the `MermaidBlock` component that drives it.

Embedding conventions: strings are `List Char`; the external Mermaid
parser (`mermaid.parse`, reached through `validateSyntax`) and the
assistant (LLM) channel are oracles, passed to every function as
parameters; the stateful webview pieces (the message listener of
`requestLLMFix`, the React component state of `MermaidBlock`) are state
machines with explicit state records.
-/


namespace MermaidFixer

def applyDeterministicFixes : List Char → List Char
  | '-' :: '-' :: '&' :: 'g' :: 't' :: ';' :: rest =>
      '-' :: '-' :: '>' :: applyDeterministicFixes rest
  | c :: rest => c :: applyDeterministicFixes rest
  | [] => []

def isPatHead : List Char → Bool
  | '-' :: '-' :: '&' :: 'g' :: 't' :: ';' :: _ => true
  | _ => false

def hasPat : List Char → Bool
  | [] => false
  | c :: rest => isPatHead (c :: rest) || hasPat rest

theorem isPatHead_iff (l : List Char) :
    isPatHead l = true ↔ ∃ t, l = '-' :: '-' :: '&' :: 'g' :: 't' :: ';' :: t := by
  constructor
  · intro h
    by_contra hc
    push_neg at hc
    rw [isPatHead.eq_2 l (fun t ht => hc t ht)] at h
    exact Bool.false_ne_true h
  · rintro ⟨t, rfl⟩
    rfl

theorem fix_head1 (l t : List Char) (h : applyDeterministicFixes l = ';' :: t) :
    ∃ u, l = ';' :: u := by
  induction l using applyDeterministicFixes.induct with
  | case1 rest ih =>
    rw [show applyDeterministicFixes ('-' :: '-' :: '&' :: 'g' :: 't' :: ';' :: rest) =
        '-' :: '-' :: '>' :: applyDeterministicFixes rest from rfl] at h
    exact absurd (List.cons.inj h).1 (by decide)
  | case2 c rest hne ih =>
    rw [applyDeterministicFixes.eq_2 _ _ hne] at h
    obtain ⟨h1, h2⟩ := List.cons.inj h
    exact ⟨rest, by rw [h1]⟩
  | case3 => simp [applyDeterministicFixes] at h

theorem fix_head2 (l t : List Char) (h : applyDeterministicFixes l = 't' :: ';' :: t) :
    ∃ u, l = 't' :: ';' :: u := by
  induction l using applyDeterministicFixes.induct with
  | case1 rest ih =>
    rw [show applyDeterministicFixes ('-' :: '-' :: '&' :: 'g' :: 't' :: ';' :: rest) =
        '-' :: '-' :: '>' :: applyDeterministicFixes rest from rfl] at h
    exact absurd (List.cons.inj h).1 (by decide)
  | case2 c rest hne ih =>
    rw [applyDeterministicFixes.eq_2 _ _ hne] at h
    obtain ⟨h1, h2⟩ := List.cons.inj h
    obtain ⟨u, hu⟩ := fix_head1 rest t h2
    exact ⟨u, by rw [h1, hu]⟩
  | case3 => simp [applyDeterministicFixes] at h

theorem fix_head3 (l t : List Char) (h : applyDeterministicFixes l = 'g' :: 't' :: ';' :: t) :
    ∃ u, l = 'g' :: 't' :: ';' :: u := by
  induction l using applyDeterministicFixes.induct with
  | case1 rest ih =>
    rw [show applyDeterministicFixes ('-' :: '-' :: '&' :: 'g' :: 't' :: ';' :: rest) =
        '-' :: '-' :: '>' :: applyDeterministicFixes rest from rfl] at h
    exact absurd (List.cons.inj h).1 (by decide)
  | case2 c rest hne ih =>
    rw [applyDeterministicFixes.eq_2 _ _ hne] at h
    obtain ⟨h1, h2⟩ := List.cons.inj h
    obtain ⟨u, hu⟩ := fix_head2 rest t h2
    exact ⟨u, by rw [h1, hu]⟩
  | case3 => simp [applyDeterministicFixes] at h

theorem fix_head4 (l t : List Char) (h : applyDeterministicFixes l = '&' :: 'g' :: 't' :: ';' :: t) :
    ∃ u, l = '&' :: 'g' :: 't' :: ';' :: u := by
  induction l using applyDeterministicFixes.induct with
  | case1 rest ih =>
    rw [show applyDeterministicFixes ('-' :: '-' :: '&' :: 'g' :: 't' :: ';' :: rest) =
        '-' :: '-' :: '>' :: applyDeterministicFixes rest from rfl] at h
    exact absurd (List.cons.inj h).1 (by decide)
  | case2 c rest hne ih =>
    rw [applyDeterministicFixes.eq_2 _ _ hne] at h
    obtain ⟨h1, h2⟩ := List.cons.inj h
    obtain ⟨u, hu⟩ := fix_head3 rest t h2
    exact ⟨u, by rw [h1, hu]⟩
  | case3 => simp [applyDeterministicFixes] at h

theorem fix_head5 (l t : List Char) (h : applyDeterministicFixes l = '-' :: '&' :: 'g' :: 't' :: ';' :: t) :
    ∃ u, l = '-' :: '&' :: 'g' :: 't' :: ';' :: u := by
  induction l using applyDeterministicFixes.induct with
  | case1 rest ih =>
    rw [show applyDeterministicFixes ('-' :: '-' :: '&' :: 'g' :: 't' :: ';' :: rest) =
        '-' :: '-' :: '>' :: applyDeterministicFixes rest from rfl] at h
    exact absurd (List.cons.inj (List.cons.inj h).2).1 (by decide)
  | case2 c rest hne ih =>
    rw [applyDeterministicFixes.eq_2 _ _ hne] at h
    obtain ⟨h1, h2⟩ := List.cons.inj h
    obtain ⟨u, hu⟩ := fix_head4 rest t h2
    exact ⟨u, by rw [h1, hu]⟩
  | case3 => simp [applyDeterministicFixes] at h

theorem nopat_fix (l : List Char) : hasPat (applyDeterministicFixes l) = false := by
  induction l using applyDeterministicFixes.induct with
  | case1 rest ih => simpa [hasPat, isPatHead] using ih
  | case2 c rest hne ih =>
    rw [applyDeterministicFixes.eq_2 _ _ hne]
    simp only [hasPat, Bool.or_eq_false_iff]
    refine ⟨?_, ih⟩
    by_contra hp
    rw [Bool.not_eq_false] at hp
    obtain ⟨t, ht⟩ := (isPatHead_iff _).1 hp
    obtain ⟨h1, h2⟩ := List.cons.inj ht
    obtain ⟨u, hu⟩ := fix_head5 rest t h2
    exact hne u h1 hu
  | case3 => rfl

theorem noop (l : List Char) (h : hasPat l = false) : applyDeterministicFixes l = l := by
  induction l using applyDeterministicFixes.induct with
  | case1 rest ih =>
    simp [hasPat, isPatHead] at h
  | case2 c rest hne ih =>
    simp only [hasPat, Bool.or_eq_false_iff] at h
    rw [applyDeterministicFixes.eq_2 _ _ hne, ih h.2]
  | case3 => rfl

theorem fix_idem (l : List Char) :
    applyDeterministicFixes (applyDeterministicFixes l) = applyDeterministicFixes l :=
  noop (applyDeterministicFixes l) (nopat_fix l)

end MermaidFixer

namespace MermaidFixer

def entityArrow : List Char := '-' :: '-' :: '&' :: 'g' :: 't' :: ';' :: []

def plainArrow : List Char := '-' :: '-' :: '>' :: []

def consHead (c : Char) : List (List Char) → List (List Char)
  | [] => [[c]]
  | p :: ps => (c :: p) :: ps

def splitPat : List Char → List (List Char)
  | '-' :: '-' :: '&' :: 'g' :: 't' :: ';' :: rest => [] :: splitPat rest
  | c :: rest => consHead c (splitPat rest)
  | [] => [[]]

def joinWith (sep : List Char) : List (List Char) → List Char
  | [] => []
  | [p] => p
  | p :: ps => p ++ sep ++ joinWith sep ps

theorem consHead_ne_nil (c : Char) (parts : List (List Char)) : consHead c parts ≠ [] := by
  cases parts <;> simp [consHead]

theorem splitPat_ne_nil (l : List Char) : splitPat l ≠ [] := by
  induction l using splitPat.induct with
  | case1 rest ih => simp [splitPat]
  | case2 c rest hne ih =>
    rw [splitPat.eq_2 _ _ hne]
    exact consHead_ne_nil c (splitPat rest)
  | case3 => simp [splitPat]

theorem joinWith_cons_of_ne_nil (sep : List Char) (p : List Char) (ps : List (List Char))
    (h : ps ≠ []) : joinWith sep (p :: ps) = p ++ sep ++ joinWith sep ps := by
  cases ps with
  | nil => exact absurd rfl h
  | cons q qs => rfl

theorem joinWith_consHead (sep : List Char) (c : Char) (parts : List (List Char)) :
    joinWith sep (consHead c parts) = c :: joinWith sep parts := by
  cases parts with
  | nil => rfl
  | cons p ps =>
    cases ps with
    | nil => rfl
    | cons q qs => simp [consHead, joinWith]

theorem joinWith_head_append (sep q : List Char) (qs : List (List Char)) :
    ∃ u, joinWith sep (q :: qs) = q ++ u := by
  cases qs with
  | nil => exact ⟨[], by simp [joinWith]⟩
  | cons r rs => exact ⟨sep ++ joinWith sep (r :: rs), by simp [joinWith]⟩

theorem join_split (l : List Char) : joinWith entityArrow (splitPat l) = l := by
  induction l using splitPat.induct with
  | case1 rest ih =>
    rw [show splitPat ('-' :: '-' :: '&' :: 'g' :: 't' :: ';' :: rest) =
        [] :: splitPat rest from rfl]
    rw [joinWith_cons_of_ne_nil _ _ _ (splitPat_ne_nil rest), ih]
    rfl
  | case2 c rest hne ih =>
    rw [splitPat.eq_2 _ _ hne, joinWith_consHead, ih]
  | case3 => rfl

theorem fix_eq_join (l : List Char) :
    applyDeterministicFixes l = joinWith plainArrow (splitPat l) := by
  induction l using splitPat.induct with
  | case1 rest ih =>
    rw [show splitPat ('-' :: '-' :: '&' :: 'g' :: 't' :: ';' :: rest) =
        [] :: splitPat rest from rfl]
    rw [joinWith_cons_of_ne_nil _ _ _ (splitPat_ne_nil rest)]
    rw [show applyDeterministicFixes ('-' :: '-' :: '&' :: 'g' :: 't' :: ';' :: rest) =
        '-' :: '-' :: '>' :: applyDeterministicFixes rest from rfl, ih]
    rfl
  | case2 c rest hne ih =>
    rw [splitPat.eq_2 _ _ hne, joinWith_consHead, ← ih]
    exact applyDeterministicFixes.eq_2 _ _ hne
  | case3 => rfl

end MermaidFixer

namespace MermaidFixer

theorem parts_nopat (l : List Char) : ∀ p ∈ splitPat l, hasPat p = false := by
  induction l using splitPat.induct with
  | case1 rest ih =>
    rw [show splitPat ('-' :: '-' :: '&' :: 'g' :: 't' :: ';' :: rest) =
        [] :: splitPat rest from rfl]
    intro p hp
    rcases List.mem_cons.1 hp with h | h
    · rw [h]; rfl
    · exact ih p h
  | case2 c rest hne ih =>
    rw [splitPat.eq_2 _ _ hne]
    intro p hp
    rcases hq : splitPat rest with _ | ⟨q, qs⟩
    · exact absurd hq (splitPat_ne_nil rest)
    · rw [hq, consHead] at hp
      rcases List.mem_cons.1 hp with h | h
      · subst h
        simp only [hasPat, Bool.or_eq_false_iff]
        constructor
        · by_contra hph
          rw [Bool.not_eq_false] at hph
          obtain ⟨t, ht⟩ := (isPatHead_iff _).1 hph
          obtain ⟨h1, h2⟩ := List.cons.inj ht
          obtain ⟨u, hu⟩ := joinWith_head_append entityArrow q qs
          have hr : rest = q ++ u := by
            rw [← join_split rest, hq, hu]
          rw [h2] at hr
          exact hne (t ++ u) h1 (by simpa using hr)
        · exact ih q (by rw [hq]; exact List.mem_cons_self q qs)
      · exact ih p (by rw [hq]; exact List.mem_cons_of_mem q h)
  | case3 =>
    intro p hp
    rw [show splitPat [] = [[]] from rfl] at hp
    rcases List.mem_cons.1 hp with h | h
    · rw [h]; rfl
    · simp at h

end MermaidFixer

namespace MermaidFixer

/-- `MermaidValidationResult` from `mermaidSyntaxFixer.ts`. -/
structure MermaidValidationResult where
  isValid : Bool
  error : Option (List Char)
deriving DecidableEq

/-- `MermaidFixResult` from `mermaidSyntaxFixer.ts`.  The optional fields
`fixedCode` and `attempts` are populated at every return site of
`fixSyntax` and `autoFixSyntax`, so they are plain fields here; `error`
is genuinely optional (absent on success). -/
structure MermaidFixResult where
  success : Bool
  fixedCode : List Char
  error : Option (List Char)
  attempts : Nat
deriving DecidableEq

/-- One settlement of a `requestLLMFix` promise, as observed by the
`fixSyntax` loop: the promise either resolves (with `message.fixedCode`,
which may be absent) or rejects (failure response or timeout). -/
inductive LLMEvent where
  | resolved (fixedCode : Option (List Char))
  | rejected (message : List Char)
deriving DecidableEq

/-- JavaScript string/null falsiness, as used by `if (!fixedCode)`:
`null`/`undefined` and the empty string are falsy. -/
def jsFalsy : Option (List Char) → Bool
  | none => true
  | some s => s.isEmpty

/-- JavaScript `a || b` on an optional string `a`: the default is used
when `a` is absent or the empty string. -/
def jsOrElse : Option (List Char) → List Char → List Char
  | none, d => d
  | some s, d => if s.isEmpty then d else s

/-- `MAX_FIX_ATTEMPTS` from `mermaidSyntaxFixer.ts`. -/
def maxFixAttempts : Nat := 2

def llmFailedMsg : List Char := "LLM failed to provide a fix".toList

def unknownValidationMsg : List Char := "Unknown validation error".toList

def unknownSyntaxMsg : List Char := "Unknown syntax error".toList

/-- The exhausted-attempts error text of `fixSyntax` (with
`MAX_FIX_ATTEMPTS = 2` interpolated). -/
def exhaustedMsg (lastError : List Char) : List Char :=
  ("Failed to fix syntax after 2 attempts. Last error: ").toList ++ lastError

/-- The result of a fix sequence together with the instrumentation the
claims are about: the candidates actually passed to `validateSyntax`
(in order) and the `(attempt, code, error)` arguments of the
`requestLLMFix` calls actually issued (in order). -/
structure FixTrace where
  result : MermaidFixResult
  validated : List (List Char)
  requested : List (Nat × List Char × List Char)
deriving DecidableEq

/-- The `for (attempt = 1; attempt <= MAX_FIX_ATTEMPTS; attempt++)` loop
of `fixSyntax`, with the remaining iteration budget as fuel
(`fuel + attempt = MAX_FIX_ATTEMPTS + 1` at the top-level call).  The
`validate` oracle embeds `validateSyntax` (the Mermaid parser); `llm`
gives the settlement of the `requestLLMFix` promise of each attempt. -/
def fixLoop (validate : List Char → MermaidValidationResult) (llm : Nat → LLMEvent) :
    Nat → Nat → List Char → List Char → List Char → FixTrace
  | 0, _, _, lastError, bestAttempt =>
    ⟨⟨false, bestAttempt, some (exhaustedMsg lastError), maxFixAttempts⟩, [], []⟩
  | fuel + 1, attempt, currentCode, lastError, bestAttempt =>
    match llm attempt with
    | .rejected msg =>
      ⟨⟨false, bestAttempt, some msg, attempt⟩, [], [(attempt, currentCode, lastError)]⟩
    | .resolved fc =>
      if jsFalsy fc then
        ⟨⟨false, bestAttempt, some llmFailedMsg, attempt⟩, [], [(attempt, currentCode, lastError)]⟩
      else
        let code := fc.getD []
        let v := validate code
        if v.isValid then
          ⟨⟨true, code, none, attempt⟩, [code], [(attempt, currentCode, lastError)]⟩
        else
          let rest := fixLoop validate llm fuel (attempt + 1) code
            (jsOrElse v.error unknownValidationMsg) code
          ⟨rest.result, code :: rest.validated,
            (attempt, currentCode, lastError) :: rest.requested⟩

/-- `MermaidSyntaxFixer.fixSyntax(originalCode, error)`. -/
def fixSyntaxRun (validate : List Char → MermaidValidationResult) (llm : Nat → LLMEvent)
    (originalCode error : List Char) : FixTrace :=
  fixLoop validate llm maxFixAttempts 1 originalCode error originalCode

/-- `MermaidSyntaxFixer.autoFixSyntax(code)`: one deterministic pass, one
validation, then `fixSyntax` on failure. -/
def autoFixSyntaxRun (validate : List Char → MermaidValidationResult) (llm : Nat → LLMEvent)
    (code : List Char) : FixTrace :=
  let d := applyDeterministicFixes code
  let v := validate d
  if v.isValid then
    ⟨⟨true, d, none, 0⟩, [d], []⟩
  else
    let rest := fixSyntaxRun validate llm d (jsOrElse v.error unknownSyntaxMsg)
    ⟨rest.result, d :: rest.validated, rest.requested⟩

end MermaidFixer

namespace MermaidFixer

theorem fixLoop_rejected (validate : List Char → MermaidValidationResult) (llm : Nat → LLMEvent)
    (fuel attempt : Nat) (currentCode lastError bestAttempt msg : List Char)
    (h : llm attempt = .rejected msg) :
    fixLoop validate llm (fuel + 1) attempt currentCode lastError bestAttempt =
      ⟨⟨false, bestAttempt, some msg, attempt⟩, [], [(attempt, currentCode, lastError)]⟩ := by
  simp [fixLoop, h]

theorem fixLoop_falsy (validate : List Char → MermaidValidationResult) (llm : Nat → LLMEvent)
    (fuel attempt : Nat) (currentCode lastError bestAttempt : List Char)
    (fc : Option (List Char)) (h : llm attempt = .resolved fc) (hf : jsFalsy fc = true) :
    fixLoop validate llm (fuel + 1) attempt currentCode lastError bestAttempt =
      ⟨⟨false, bestAttempt, some llmFailedMsg, attempt⟩, [], [(attempt, currentCode, lastError)]⟩ := by
  simp [fixLoop, h, hf]

theorem fixLoop_attempts_le (validate : List Char → MermaidValidationResult)
    (llm : Nat → LLMEvent) :
    ∀ fuel attempt currentCode lastError bestAttempt,
      attempt + fuel = maxFixAttempts + 1 →
      (fixLoop validate llm fuel attempt currentCode lastError bestAttempt).result.attempts ≤
        maxFixAttempts := by
  intro fuel
  induction fuel with
  | zero => intro attempt cc le ba _; simp [fixLoop]
  | succ fuel ih =>
    intro attempt cc le ba hsum
    cases hl : llm attempt with
    | rejected msg =>
      rw [fixLoop_rejected validate llm fuel attempt cc le ba msg hl]
      show attempt <= maxFixAttempts
      omega
    | resolved fc =>
      by_cases hf : jsFalsy fc = true
      · rw [fixLoop_falsy validate llm fuel attempt cc le ba fc hl hf]
        show attempt <= maxFixAttempts
        omega
      · simp only [fixLoop, hl, hf, Bool.false_eq_true, if_false]
        split
        · show attempt <= maxFixAttempts
          omega
        · exact ih (attempt + 1) _ _ _ (by omega)

theorem fixLoop_attempts_pos (validate : List Char → MermaidValidationResult)
    (llm : Nat → LLMEvent) :
    ∀ fuel attempt currentCode lastError bestAttempt, 1 ≤ attempt →
      1 ≤ (fixLoop validate llm fuel attempt currentCode lastError bestAttempt).result.attempts := by
  intro fuel
  induction fuel with
  | zero => intro attempt cc le ba _; simp [fixLoop, maxFixAttempts]
  | succ fuel ih =>
    intro attempt cc le ba h1
    cases hl : llm attempt with
    | rejected msg =>
      rw [fixLoop_rejected validate llm fuel attempt cc le ba msg hl]
      exact h1
    | resolved fc =>
      by_cases hf : jsFalsy fc = true
      · rw [fixLoop_falsy validate llm fuel attempt cc le ba fc hl hf]
        exact h1
      · simp only [fixLoop, hl, hf, Bool.false_eq_true, if_false]
        split
        · exact h1
        · exact ih (attempt + 1) _ _ _ (by omega)

theorem fixLoop_fail_last_validated (validate : List Char → MermaidValidationResult)
    (llm : Nat → LLMEvent) :
    ∀ fuel attempt currentCode lastError bestAttempt,
      (fixLoop validate llm fuel attempt currentCode lastError bestAttempt).result.success = false →
      (fixLoop validate llm fuel attempt currentCode lastError bestAttempt).validated.getLastD
          bestAttempt =
        (fixLoop validate llm fuel attempt currentCode lastError bestAttempt).result.fixedCode := by
  intro fuel
  induction fuel with
  | zero => intro attempt cc le ba _; simp [fixLoop]
  | succ fuel ih =>
    intro attempt cc le ba hfail
    cases hl : llm attempt with
    | rejected msg =>
      rw [fixLoop_rejected validate llm fuel attempt cc le ba msg hl]
      rfl
    | resolved fc =>
      by_cases hf : jsFalsy fc = true
      · rw [fixLoop_falsy validate llm fuel attempt cc le ba fc hl hf]
        rfl
      · simp only [fixLoop, hl, hf, Bool.false_eq_true, if_false] at hfail ⊢
        by_cases hv : (validate (fc.getD [])).isValid = true
        · rw [if_pos hv] at hfail
          exact Bool.noConfusion hfail
        · rw [if_neg hv] at hfail ⊢
          simp only [List.getLastD_cons]
          exact ih (attempt + 1) _ _ _ hfail

theorem jsFalsy_getD_ne_nil (fc : Option (List Char)) (h : jsFalsy fc = false) :
    fc.getD [] ≠ [] := by
  cases fc with
  | none => simp [jsFalsy] at h
  | some s =>
    simp only [Option.getD_some]
    exact List.isEmpty_eq_false.1 h

theorem fixLoop_fixedCode_ne_nil (validate : List Char → MermaidValidationResult)
    (llm : Nat → LLMEvent) :
    ∀ fuel attempt currentCode lastError bestAttempt, bestAttempt ≠ [] →
      (fixLoop validate llm fuel attempt currentCode lastError bestAttempt).result.fixedCode ≠ [] := by
  intro fuel
  induction fuel with
  | zero => intro attempt cc le ba hba; simpa [fixLoop] using hba
  | succ fuel ih =>
    intro attempt cc le ba hba
    cases hl : llm attempt with
    | rejected msg =>
      rw [fixLoop_rejected validate llm fuel attempt cc le ba msg hl]
      exact hba
    | resolved fc =>
      by_cases hf : jsFalsy fc = true
      · rw [fixLoop_falsy validate llm fuel attempt cc le ba fc hl hf]
        exact hba
      · simp only [fixLoop, hl, hf, Bool.false_eq_true, if_false]
        split
        · exact jsFalsy_getD_ne_nil fc (by simpa using hf)
        · exact ih (attempt + 1) _ _ _ (jsFalsy_getD_ne_nil fc (by simpa using hf))

theorem applyDeterministicFixes_ne_nil (l : List Char) (h : l ≠ []) :
    applyDeterministicFixes l ≠ [] := by
  induction l using applyDeterministicFixes.induct with
  | case1 rest ih => simp [applyDeterministicFixes]
  | case2 c rest hne ih =>
    rw [applyDeterministicFixes.eq_2 _ _ hne]
    simp
  | case3 => exact absurd rfl h

end MermaidFixer

namespace MermaidFixer

/-- A string containing the entity-escaping defect, used as an assistant
correction in concrete runs. -/
def defectSample : List Char := 'a' :: (entityArrow ++ ('b' :: []))

/-- A validator oracle that accepts exactly `defectSample`. -/
def acceptDefectValidate : List Char → MermaidValidationResult :=
  fun s => ⟨decide (s = defectSample), none⟩

/-- An assistant channel that always resolves with `defectSample`. -/
def defectLlm : Nat → LLMEvent :=
  fun _ => LLMEvent.resolved (some defectSample)

/-- A validator oracle that rejects everything. -/
def rejectAllValidate : List Char → MermaidValidationResult :=
  fun _ => ⟨false, some ('e' :: [])⟩

/-- An assistant channel that always resolves with `null`. -/
def nullLlm : Nat → LLMEvent := fun _ => LLMEvent.resolved none

/-- An assistant channel that always resolves with the empty string. -/
def emptyLlm : Nat → LLMEvent := fun _ => LLMEvent.resolved (some [])

/-- C1: the claim `fixedCode == applyDeterministicFixes(fixedCode)` for
every `FixOutcome` of `autoFixSyntax` fails on the code: when the
assistant resolves a correction containing `--&gt;` and the validator
accepts it, `fixSyntax` returns that correction verbatim, so the reported
`fixedCode` is not a fixed point of the deterministic pass.  (The repo's
own `fixSyntax` tests expect every correction to be passed through
`applyDeterministicFixes`, so this is a defect of the code, not of the
claim.) -/
theorem claim1_normalization_invariant_violated :
    (autoFixSyntaxRun acceptDefectValidate defectLlm ('x' :: [])).result.success = true ∧
    (autoFixSyntaxRun acceptDefectValidate defectLlm ('x' :: [])).result.fixedCode ≠
      applyDeterministicFixes
        ((autoFixSyntaxRun acceptDefectValidate defectLlm ('x' :: [])).result.fixedCode) := by
  decide

/-- C2: the claim that every assistant correction is passed through
`applyDeterministicFixes` before re-validation fails on the code: the
correction `defectSample` (which contains `--&gt;`) is validated verbatim
and its normalized form is never validated.  (The repo's own tests assert
`applyDeterministicFixes` is invoked on each correction, so this is a
defect of the code, not of the claim.) -/
theorem claim2_corrections_validated_verbatim :
    defectSample ∈ (autoFixSyntaxRun rejectAllValidate defectLlm ('x' :: [])).validated ∧
    applyDeterministicFixes defectSample ∉
      (autoFixSyntaxRun rejectAllValidate defectLlm ('x' :: [])).validated ∧
    applyDeterministicFixes defectSample ≠ defectSample := by
  decide

/-- C3: for every input and every assistant behaviour, the `attempts`
field of the outcome of `autoFixSyntax` satisfies
`0 ≤ attempts ≤ MAX_FIX_ATTEMPTS = 2`; it is `0` exactly when the
deterministic pass alone yields a candidate the validator accepts; and
`attempts = 0` is reachable. -/
theorem claim3_attempt_bound :
    (∀ (validate : List Char → MermaidValidationResult) (llm : Nat → LLMEvent)
        (code : List Char),
      (autoFixSyntaxRun validate llm code).result.attempts ≤ maxFixAttempts) ∧
    (∀ (validate : List Char → MermaidValidationResult) (llm : Nat → LLMEvent)
        (code : List Char),
      (autoFixSyntaxRun validate llm code).result.attempts = 0 ↔
        (validate (applyDeterministicFixes code)).isValid = true) ∧
    (∃ (validate : List Char → MermaidValidationResult) (llm : Nat → LLMEvent)
        (code : List Char),
      (autoFixSyntaxRun validate llm code).result.attempts = 0) := by
  refine ⟨?_, ?_, ?_⟩
  · intro validate llm code
    simp only [autoFixSyntaxRun, fixSyntaxRun]
    by_cases hv : (validate (applyDeterministicFixes code)).isValid = true
    · rw [if_pos hv]
      show 0 ≤ maxFixAttempts
      exact Nat.zero_le _
    · rw [if_neg hv]
      exact fixLoop_attempts_le validate llm maxFixAttempts 1 _ _ _ (by omega)
  · intro validate llm code
    simp only [autoFixSyntaxRun, fixSyntaxRun]
    by_cases hv : (validate (applyDeterministicFixes code)).isValid = true
    · rw [if_pos hv]
      exact ⟨fun _ => hv, fun _ => rfl⟩
    · rw [if_neg hv]
      constructor
      · intro h0
        have hpos := fixLoop_attempts_pos validate llm maxFixAttempts 1
          (applyDeterministicFixes code)
          (jsOrElse (validate (applyDeterministicFixes code)).error unknownSyntaxMsg)
          (applyDeterministicFixes code) (le_refl 1)
        have h0' : (fixLoop validate llm maxFixAttempts 1 (applyDeterministicFixes code)
            (jsOrElse (validate (applyDeterministicFixes code)).error unknownSyntaxMsg)
            (applyDeterministicFixes code)).result.attempts = 0 := h0
        omega
      · intro h
        exact absurd h hv
  · exact ⟨fun _ => ⟨true, none⟩, nullLlm, [], rfl⟩

/-- C4: whenever the assistant channel yields no fix (null or empty, both
falsy) or its request rejects (failure response or timeout), `fixSyntax`
returns immediately from any reachable loop state: `success := false`,
`fixedCode` is the best candidate seen so far, `attempts` is the attempt
whose request failed, the error text is `LLM failed to provide a fix` in
the null case (the rejection message otherwise), and the trace shows no
further validation passes and no assistant request beyond the failing
one. -/
theorem claim4_assistant_failure_short_circuits
    (validate : List Char → MermaidValidationResult) (llm : Nat → LLMEvent)
    (fuel attempt : Nat) (currentCode lastError bestAttempt : List Char) :
    (∀ fc, llm attempt = LLMEvent.resolved fc → jsFalsy fc = true →
        fixLoop validate llm (fuel + 1) attempt currentCode lastError bestAttempt =
          ⟨⟨false, bestAttempt, some llmFailedMsg, attempt⟩, [],
            [(attempt, currentCode, lastError)]⟩) ∧
    (∀ msg, llm attempt = LLMEvent.rejected msg →
        fixLoop validate llm (fuel + 1) attempt currentCode lastError bestAttempt =
          ⟨⟨false, bestAttempt, some msg, attempt⟩, [],
            [(attempt, currentCode, lastError)]⟩) :=
  ⟨fun fc h hf => fixLoop_falsy validate llm fuel attempt _ _ _ fc h hf,
   fun msg h => fixLoop_rejected validate llm fuel attempt _ _ _ msg h⟩

/-- Witness for C4 at a concrete loop state and channel. -/
theorem claim4_witness :
    nullLlm 1 = LLMEvent.resolved none ∧ jsFalsy none = true ∧
    fixLoop rejectAllValidate nullLlm 2 1 ('x' :: []) ('e' :: []) ('x' :: []) =
      ⟨⟨false, 'x' :: [], some llmFailedMsg, 1⟩, [], [(1, 'x' :: [], 'e' :: [])]⟩ :=
  ⟨rfl, rfl,
    (claim4_assistant_failure_short_circuits rejectAllValidate nullLlm 1 1
      ('x' :: []) ('e' :: []) ('x' :: [])).1 none rfl rfl⟩

/-- C5 counterexample: on the empty input with a rejecting validator and
a null-resolving assistant, `autoFixSyntax` fails with an *empty*
`fixedCode`, refuting the claim that `fixedCode` is always non-empty on
failure. -/
theorem claim5_counterexample :
    (autoFixSyntaxRun rejectAllValidate nullLlm []).result.success = false ∧
    (autoFixSyntaxRun rejectAllValidate nullLlm []).result.fixedCode = [] := by
  decide

/-- C5 (amended): on `success = false`, `fixedCode` equals the last
candidate actually evaluated by `validateSyntax` in the sequence (never
an earlier one), and it is non-empty whenever the input is non-empty
(the original claim's unconditional non-emptiness fails for the empty
input). -/
theorem claim5_failure_reports_last_validated
    (validate : List Char → MermaidValidationResult) (llm : Nat → LLMEvent)
    (code : List Char)
    (h : (autoFixSyntaxRun validate llm code).result.success = false) :
    (autoFixSyntaxRun validate llm code).validated ≠ [] ∧
    (autoFixSyntaxRun validate llm code).validated.getLastD [] =
      (autoFixSyntaxRun validate llm code).result.fixedCode ∧
    (code ≠ [] → (autoFixSyntaxRun validate llm code).result.fixedCode ≠ []) := by
  by_cases hv : (validate (applyDeterministicFixes code)).isValid = true
  · exfalso
    simp only [autoFixSyntaxRun] at h
    rw [if_pos hv] at h
    exact Bool.noConfusion h
  · simp only [autoFixSyntaxRun, fixSyntaxRun] at h ⊢
    rw [if_neg hv] at h ⊢
    refine ⟨by simp, ?_, ?_⟩
    · simp only [List.getLastD_cons]
      exact fixLoop_fail_last_validated validate llm maxFixAttempts 1 _ _ _ h
    · intro hc
      exact fixLoop_fixedCode_ne_nil validate llm maxFixAttempts 1 _ _ _
        (applyDeterministicFixes_ne_nil code hc)

/-- Witness for C5 (amended) at a concrete failing run. -/
theorem claim5_witness :
    (autoFixSyntaxRun rejectAllValidate nullLlm ('x' :: [])).validated ≠ [] ∧
    (autoFixSyntaxRun rejectAllValidate nullLlm ('x' :: [])).validated.getLastD [] =
      (autoFixSyntaxRun rejectAllValidate nullLlm ('x' :: [])).result.fixedCode ∧
    (('x' :: []) ≠ ([] : List Char) →
      (autoFixSyntaxRun rejectAllValidate nullLlm ('x' :: [])).result.fixedCode ≠ []) :=
  claim5_failure_reports_last_validated rejectAllValidate nullLlm ('x' :: []) (by decide)

/-- C10: a matching assistant response with `success: true` but an empty
`fixedCode` is treated exactly like a null result, because the guard
tests JavaScript falsiness: `fixSyntax` returns immediately with
`success := false` and error `LLM failed to provide a fix`, the empty
correction is never validated or adopted, and the run coincides with the
run whose channel resolves `null` at that attempt. -/
theorem claim10_empty_correction_treated_as_null
    (validate : List Char → MermaidValidationResult) (llm : Nat → LLMEvent)
    (fuel attempt : Nat) (currentCode lastError bestAttempt : List Char)
    (h : llm attempt = LLMEvent.resolved (some [])) :
    fixLoop validate llm (fuel + 1) attempt currentCode lastError bestAttempt =
      ⟨⟨false, bestAttempt, some llmFailedMsg, attempt⟩, [],
        [(attempt, currentCode, lastError)]⟩ ∧
    (fixLoop validate llm (fuel + 1) attempt currentCode lastError bestAttempt).validated = [] ∧
    fixLoop validate llm (fuel + 1) attempt currentCode lastError bestAttempt =
      fixLoop validate (fun j => if j = attempt then LLMEvent.resolved none else llm j)
        (fuel + 1) attempt currentCode lastError bestAttempt := by
  have h1 := fixLoop_falsy validate llm fuel attempt currentCode lastError bestAttempt
    (some []) h rfl
  have h2 := fixLoop_falsy validate
    (fun j => if j = attempt then LLMEvent.resolved none else llm j)
    fuel attempt currentCode lastError bestAttempt none (by simp) rfl
  exact ⟨h1, by rw [h1], by rw [h1, h2]⟩

/-- Witness for C10 at a concrete loop state and channel. -/
theorem claim10_witness :
    emptyLlm 1 = LLMEvent.resolved (some []) ∧
    fixLoop rejectAllValidate emptyLlm 2 1 ('x' :: []) ('e' :: []) ('x' :: []) =
      ⟨⟨false, 'x' :: [], some llmFailedMsg, 1⟩, [], [(1, 'x' :: [], 'e' :: [])]⟩ :=
  ⟨rfl,
    (claim10_empty_correction_treated_as_null rejectAllValidate emptyLlm 1 1
      ('x' :: []) ('e' :: []) ('x' :: []) rfl).1⟩

end MermaidFixer

namespace MermaidFixer

/-- A settlement of the promise created by `requestLLMFix`. -/
inductive Settlement where
  | resolvedFix (fixedCode : Option (List Char))
  | rejectedFix (message : List Char)
deriving DecidableEq

/-- The listener/timer state of one `requestLLMFix` call: whether its
message listener is registered, whether its timeout timer is armed (not
yet cleared and not yet fired), how the promise settled (if it did), and
how many times the `cleanup` closure has run. -/
structure ListenerState where
  listenerRegistered : Bool
  timerActive : Bool
  settled : Option Settlement
  cleanupRuns : Nat
deriving DecidableEq

/-- An event observable by one `requestLLMFix` call: an inbound `window`
message (with the fields the listener inspects) or the firing of the
timeout timer. -/
inductive ChannelEvent where
  | message (msgType : List Char) (requestId : List Char) (success : Bool)
      (fixedCode : Option (List Char)) (error : Option (List Char))
  | timerFire
deriving DecidableEq

def mermaidFixResponseType : List Char := "mermaidFixResponse".toList

def timedOutMsg : List Char := "LLM fix request timed out".toList

def llmFixFailedMsg : List Char := "LLM fix failed".toList

/-- The state of a `requestLLMFix` call right after it runs: the timer is
armed by `setTimeout`, the listener is registered by `addEventListener`,
nothing has settled, and `cleanup` has not run. -/
def requestLLMFixInit : ListenerState := ⟨true, true, none, 0⟩

/-- One event processed by a pending `requestLLMFix` call with
correlation id `requestId`.  The timer callback fires only if the timer
is still armed (a cleared timer never fires); it runs `cleanup` and
rejects.  The message listener reacts only while registered and only to
a `mermaidFixResponse` carrying the matching `requestId`; it runs
`cleanup`, then resolves with `message.fixedCode` on `success` and
otherwise rejects with `message.error || "LLM fix failed"`. -/
def channelStep (requestId : List Char) (s : ListenerState) (e : ChannelEvent) :
    ListenerState :=
  match e with
  | .timerFire =>
    if s.timerActive then
      ⟨false, false, some (Settlement.rejectedFix timedOutMsg), s.cleanupRuns + 1⟩
    else s
  | .message msgType rid success fixedCode error =>
    if s.listenerRegistered then
      if msgType = mermaidFixResponseType ∧ rid = requestId then
        if success then
          ⟨false, false, some (Settlement.resolvedFix fixedCode), s.cleanupRuns + 1⟩
        else
          ⟨false, false, some (Settlement.rejectedFix (jsOrElse error llmFixFailedMsg)),
            s.cleanupRuns + 1⟩
      else s
    else s

/-- The state of one `requestLLMFix` call after an arbitrary sequence of
events. -/
def channelRun (requestId : List Char) (events : List ChannelEvent) : ListenerState :=
  events.foldl (channelStep requestId) requestLLMFixInit

/-- The cleanup invariant of a `requestLLMFix` call: while pending, the
one listener and the one timer are in place and `cleanup` has not run;
once settled, the listener is removed, the timer cancelled, and
`cleanup` has run exactly once. -/
def listenerInv (s : ListenerState) : Prop :=
  (s.settled = none ∧ s.listenerRegistered = true ∧ s.timerActive = true ∧
    s.cleanupRuns = 0) ∨
  (s.settled ≠ none ∧ s.listenerRegistered = false ∧ s.timerActive = false ∧
    s.cleanupRuns = 1)

theorem channelStep_inv (requestId : List Char) (s : ListenerState) (e : ChannelEvent)
    (h : listenerInv s) : listenerInv (channelStep requestId s e) := by
  rcases h with ⟨h1, h2, h3, h4⟩ | ⟨h1, h2, h3, h4⟩
  · cases e with
    | timerFire =>
      simp only [channelStep, h3, if_true]
      right
      exact ⟨by simp, rfl, rfl, by rw [h4]⟩
    | message msgType rid success fixedCode error =>
      simp only [channelStep, h2, if_true]
      by_cases hm : msgType = mermaidFixResponseType ∧ rid = requestId
      · rw [if_pos hm]
        cases success with
        | true =>
          rw [if_pos rfl]
          right
          exact ⟨by simp, rfl, rfl, by rw [h4]⟩
        | false =>
          rw [if_neg (by simp)]
          right
          exact ⟨by simp, rfl, rfl, by rw [h4]⟩
      · rw [if_neg hm]
        exact Or.inl ⟨h1, h2, h3, h4⟩
  · cases e with
    | timerFire =>
      simp only [channelStep, h3, Bool.false_eq_true, if_false]
      exact Or.inr ⟨h1, h2, h3, h4⟩
    | message msgType rid success fixedCode error =>
      simp only [channelStep, h2, Bool.false_eq_true, if_false]
      exact Or.inr ⟨h1, h2, h3, h4⟩

theorem channelRun_inv (requestId : List Char) (events : List ChannelEvent) :
    listenerInv (channelRun requestId events) := by
  have hgen : ∀ (evs : List ChannelEvent) (s : ListenerState), listenerInv s →
      listenerInv (evs.foldl (channelStep requestId) s) := by
    intro evs
    induction evs with
    | nil => intro s hs; exact hs
    | cons e evs ih =>
      intro s hs
      exact ih (channelStep requestId s e) (channelStep_inv requestId s e hs)
  exact hgen events requestLLMFixInit (Or.inl ⟨rfl, rfl, rfl, rfl⟩)

/-- C9: every `requestLLMFix` call registers exactly one listener and
arms exactly one timer (the initial state); on every settlement path —
matching success response, matching failure response, or timeout — the
listener is removed, the timer cancelled, and the `cleanup` closure has
run exactly once by the time the promise is settled; while unsettled the
listener and timer are still in place and `cleanup` has not run, so no
settlement path can run it twice and no listener survives settlement. -/
theorem claim9_listener_cleanup (requestId : List Char) (events : List ChannelEvent) :
    (requestLLMFixInit.listenerRegistered = true ∧ requestLLMFixInit.timerActive = true ∧
      requestLLMFixInit.cleanupRuns = 0) ∧
    (∀ st, (channelRun requestId events).settled = some st →
      (channelRun requestId events).listenerRegistered = false ∧
      (channelRun requestId events).timerActive = false ∧
      (channelRun requestId events).cleanupRuns = 1) ∧
    ((channelRun requestId events).settled = none →
      (channelRun requestId events).listenerRegistered = true ∧
      (channelRun requestId events).timerActive = true ∧
      (channelRun requestId events).cleanupRuns = 0) := by
  refine ⟨⟨rfl, rfl, rfl⟩, ?_, ?_⟩
  · intro st hst
    rcases channelRun_inv requestId events with ⟨h1, _, _, _⟩ | ⟨_, h2, h3, h4⟩
    · rw [h1] at hst; exact Option.noConfusion hst
    · exact ⟨h2, h3, h4⟩
  · intro hnone
    rcases channelRun_inv requestId events with ⟨_, h2, h3, h4⟩ | ⟨h1, _, _, _⟩
    · exact ⟨h2, h3, h4⟩
    · exact absurd hnone h1

/-- Witness for C9: a run settled by a matching success response. -/
theorem claim9_witness :
    (channelRun ('r' :: [])
        [ChannelEvent.message mermaidFixResponseType ('r' :: []) true (some ('f' :: [])) none,
         ChannelEvent.timerFire]).settled = some (Settlement.resolvedFix (some ('f' :: []))) ∧
    (channelRun ('r' :: [])
        [ChannelEvent.message mermaidFixResponseType ('r' :: []) true (some ('f' :: [])) none,
         ChannelEvent.timerFire]).listenerRegistered = false ∧
    (channelRun ('r' :: [])
        [ChannelEvent.message mermaidFixResponseType ('r' :: []) true (some ('f' :: [])) none,
         ChannelEvent.timerFire]).timerActive = false ∧
    (channelRun ('r' :: [])
        [ChannelEvent.message mermaidFixResponseType ('r' :: []) true (some ('f' :: [])) none,
         ChannelEvent.timerFire]).cleanupRuns = 1 :=
  ⟨by decide,
    (claim9_listener_cleanup ('r' :: [])
        [ChannelEvent.message mermaidFixResponseType ('r' :: []) true (some ('f' :: [])) none,
         ChannelEvent.timerFire]).2.1 (Settlement.resolvedFix (some ('f' :: []))) (by decide)⟩

end MermaidFixer

namespace MermaidFixer

/-- The `MermaidBlock` component state relevant to the auto-fix guard
(`code` prop, `currentCode`, `hasAutoFixed`, `isFixing`, `error`,
`fixAttempts`), instrumented with the number of `autoFixSyntax`
invocations and the total number of assistant requests those invocations
issued.  (Pure presentation state such as the loading indicator is not
modelled.) -/
structure BlockState where
  code : List Char
  currentCode : List Char
  hasAutoFixed : Bool
  isFixing : Bool
  error : Option (List Char)
  fixAttempts : Nat
  autoFixCalls : Nat
  llmRequests : Nat
deriving DecidableEq

/-- The `useEffect` of `MermaidBlock` that runs whenever the `code` prop
changes: reset the error, adopt the new source as `currentCode`, and
clear the auto-fix guard. -/
def resetEffect (s : BlockState) (newCode : List Char) : BlockState :=
  { s with code := newCode, currentCode := newCode, hasAutoFixed := false,
           error := none, fixAttempts := 0 }

/-- One debounced render cycle of `MermaidBlock` (`renderMermaid`): try
the parser oracle on `currentCode`; on failure, if the guard
`!hasAutoFixed && currentCode === code && !isFixing` passes, invoke
`autoFixSyntax` and adopt its result when it succeeded with a truthy
`fixedCode` different from `currentCode`, otherwise surface the render
error. -/
def renderCycle (parseOk : List Char → Bool) (parseErrMsg : List Char → List Char)
    (validate : List Char → MermaidValidationResult) (llm : Nat → LLMEvent)
    (s : BlockState) : BlockState :=
  if parseOk s.currentCode then
    { s with error := none }
  else if s.hasAutoFixed = false ∧ s.currentCode = s.code ∧ s.isFixing = false then
    if (autoFixSyntaxRun validate llm s.currentCode).result.success = true ∧
        (autoFixSyntaxRun validate llm s.currentCode).result.fixedCode ≠ [] ∧
        (autoFixSyntaxRun validate llm s.currentCode).result.fixedCode ≠ s.currentCode then
      { s with currentCode := (autoFixSyntaxRun validate llm s.currentCode).result.fixedCode,
               hasAutoFixed := true,
               fixAttempts := (autoFixSyntaxRun validate llm s.currentCode).result.attempts,
               autoFixCalls := s.autoFixCalls + 1,
               llmRequests := s.llmRequests +
                 (autoFixSyntaxRun validate llm s.currentCode).requested.length }
    else
      { s with error := some (parseErrMsg s.currentCode),
               autoFixCalls := s.autoFixCalls + 1,
               llmRequests := s.llmRequests +
                 (autoFixSyntaxRun validate llm s.currentCode).requested.length }
  else
    { s with error := some (parseErrMsg s.currentCode) }

/-- The render cycles of one settled source value: the debounced effect
depends on `[currentCode]`, so a further cycle runs only when a cycle
changed `currentCode`; the fuel bounds how many cycles we look at. -/
def renderCycles (parseOk : List Char → Bool) (parseErrMsg : List Char → List Char)
    (validate : List Char → MermaidValidationResult) (llm : Nat → LLMEvent) :
    Nat → BlockState → BlockState
  | 0, s => s
  | n + 1, s =>
    let s' := renderCycle parseOk parseErrMsg validate llm s
    if s'.currentCode = s.currentCode then s'
    else renderCycles parseOk parseErrMsg validate llm n s'

theorem renderCycle_no_fix (parseOk : List Char → Bool)
    (parseErrMsg : List Char → List Char)
    (validate : List Char → MermaidValidationResult) (llm : Nat → LLMEvent)
    (s : BlockState) (h : s.hasAutoFixed = true) :
    (renderCycle parseOk parseErrMsg validate llm s).currentCode = s.currentCode ∧
    (renderCycle parseOk parseErrMsg validate llm s).autoFixCalls = s.autoFixCalls ∧
    (renderCycle parseOk parseErrMsg validate llm s).llmRequests = s.llmRequests ∧
    (renderCycle parseOk parseErrMsg validate llm s).hasAutoFixed = true := by
  unfold renderCycle
  by_cases hp : parseOk s.currentCode = true
  · rw [if_pos hp]
    exact ⟨rfl, rfl, rfl, h⟩
  · rw [if_neg hp, if_neg (by simp [h])]
    exact ⟨rfl, rfl, rfl, h⟩

theorem renderCycles_no_fix (parseOk : List Char → Bool)
    (parseErrMsg : List Char → List Char)
    (validate : List Char → MermaidValidationResult) (llm : Nat → LLMEvent) :
    ∀ (n : Nat) (s : BlockState), s.hasAutoFixed = true →
      (renderCycles parseOk parseErrMsg validate llm n s).autoFixCalls = s.autoFixCalls ∧
      (renderCycles parseOk parseErrMsg validate llm n s).llmRequests = s.llmRequests := by
  intro n
  induction n with
  | zero => intro s h; exact ⟨rfl, rfl⟩
  | succ n ih =>
    intro s h
    obtain ⟨hc, ha, hl, hh⟩ := renderCycle_no_fix parseOk parseErrMsg validate llm s h
    simp only [renderCycles]
    rw [if_pos hc]
    exact ⟨ha, hl⟩

end MermaidFixer

namespace MermaidFixer

theorem renderCycles_epoch_bound (parseOk : List Char → Bool)
    (parseErrMsg : List Char → List Char)
    (validate : List Char → MermaidValidationResult) (llm : Nat → LLMEvent) :
    ∀ (n : Nat) (s0 : BlockState), s0.hasAutoFixed = false → s0.currentCode = s0.code →
      (renderCycles parseOk parseErrMsg validate llm n s0).autoFixCalls ≤
        s0.autoFixCalls + 1 ∧
      (renderCycles parseOk parseErrMsg validate llm n s0).llmRequests ≤
        s0.llmRequests + (autoFixSyntaxRun validate llm s0.currentCode).requested.length := by
  intro n s0 hnf hcc
  cases n with
  | zero => exact ⟨Nat.le_succ _, Nat.le_add_right _ _⟩
  | succ n =>
    simp only [renderCycles]
    by_cases hp : parseOk s0.currentCode = true
    · have hcyc : renderCycle parseOk parseErrMsg validate llm s0 = { s0 with error := none } := by
        unfold renderCycle
        rw [if_pos hp]
      rw [hcyc, if_pos rfl]
      exact ⟨Nat.le_succ _, Nat.le_add_right _ _⟩
    · by_cases hfx : s0.isFixing = false
      · have hgd : s0.hasAutoFixed = false ∧ s0.currentCode = s0.code ∧ s0.isFixing = false :=
          ⟨hnf, hcc, hfx⟩
        by_cases had : (autoFixSyntaxRun validate llm s0.currentCode).result.success = true ∧
            (autoFixSyntaxRun validate llm s0.currentCode).result.fixedCode ≠ [] ∧
            (autoFixSyntaxRun validate llm s0.currentCode).result.fixedCode ≠ s0.currentCode
        · have hcyc : renderCycle parseOk parseErrMsg validate llm s0 =
              { s0 with
                  currentCode := (autoFixSyntaxRun validate llm s0.currentCode).result.fixedCode,
                  hasAutoFixed := true,
                  fixAttempts := (autoFixSyntaxRun validate llm s0.currentCode).result.attempts,
                  autoFixCalls := s0.autoFixCalls + 1,
                  llmRequests := s0.llmRequests +
                    (autoFixSyntaxRun validate llm s0.currentCode).requested.length } := by
            unfold renderCycle
            rw [if_neg hp, if_pos hgd, if_pos had]
          rw [hcyc, if_neg had.2.2]
          have hrest := renderCycles_no_fix parseOk parseErrMsg validate llm n
            { s0 with
                currentCode := (autoFixSyntaxRun validate llm s0.currentCode).result.fixedCode,
                hasAutoFixed := true,
                fixAttempts := (autoFixSyntaxRun validate llm s0.currentCode).result.attempts,
                autoFixCalls := s0.autoFixCalls + 1,
                llmRequests := s0.llmRequests +
                  (autoFixSyntaxRun validate llm s0.currentCode).requested.length } rfl
          rw [hrest.1, hrest.2]
          exact ⟨le_refl _, le_refl _⟩
        · have hcyc : renderCycle parseOk parseErrMsg validate llm s0 =
              { s0 with error := some (parseErrMsg s0.currentCode),
                        autoFixCalls := s0.autoFixCalls + 1,
                        llmRequests := s0.llmRequests +
                          (autoFixSyntaxRun validate llm s0.currentCode).requested.length } := by
            unfold renderCycle
            rw [if_neg hp, if_pos hgd, if_neg had]
          rw [hcyc, if_pos rfl]
          exact ⟨le_refl _, le_refl _⟩
      · have hcyc : renderCycle parseOk parseErrMsg validate llm s0 =
            { s0 with error := some (parseErrMsg s0.currentCode) } := by
          unfold renderCycle
          rw [if_neg hp, if_neg (fun hg => hfx hg.2.2)]
        rw [hcyc, if_pos rfl]
        exact ⟨Nat.le_succ _, Nat.le_add_right _ _⟩

/-- C8: for every fixed value of the authored source (`code` prop), the
automatic render pipeline invokes `autoFixSyntax` at most once — however
many debounced render cycles run or fail for that unchanged source after
the source-change reset effect — and the number of assistant requests
issued for that source is bounded by the requests of the single
`autoFixSyntax` call on that source; the guard state (`hasAutoFixed`,
`currentCode`) is cleared only by the reset effect, which runs only when
the authored source changes. -/
theorem claim8_autofix_at_most_once_per_source (parseOk : List Char → Bool)
    (parseErrMsg : List Char → List Char)
    (validate : List Char → MermaidValidationResult) (llm : Nat → LLMEvent)
    (n : Nat) (s : BlockState) (newCode : List Char) :
    (renderCycles parseOk parseErrMsg validate llm n (resetEffect s newCode)).autoFixCalls ≤
      s.autoFixCalls + 1 ∧
    (renderCycles parseOk parseErrMsg validate llm n (resetEffect s newCode)).llmRequests ≤
      s.llmRequests + (autoFixSyntaxRun validate llm newCode).requested.length :=
  renderCycles_epoch_bound parseOk parseErrMsg validate llm n (resetEffect s newCode) rfl rfl

end MermaidFixer

namespace MermaidFixer

/-- C6: `applyDeterministicFixes` returns the input with every
occurrence of the literal `--&gt;` replaced by `-->` and every other
character unchanged: the input decomposes as its occurrence-free parts
joined by `--&gt;` (`joinWith entityArrow (splitPat l) = l`, with no part
containing the defect), and the output is exactly the same parts joined
by `-->`, so all surrounding characters — whitespace, line structure,
and any other entity sequence — are preserved verbatim. -/
theorem claim6_replacement_characterization (l : List Char) :
    applyDeterministicFixes l = joinWith plainArrow (splitPat l) ∧
    joinWith entityArrow (splitPat l) = l ∧
    ∀ p ∈ splitPat l, hasPat p = false :=
  ⟨fix_eq_join l, join_split l, parts_nopat l⟩

/-- Witness for C6 at the concrete input `a--&gt;b`. -/
theorem claim6_witness :
    ('a' :: []) ∈ splitPat defectSample ∧ hasPat ('a' :: []) = false :=
  ⟨by decide,
    (claim6_replacement_characterization defectSample).2.2 ('a' :: []) (by decide)⟩

/-- C7: `applyDeterministicFixes` is a pure total function (it is a Lean
function), it is idempotent, and it is a no-op on input containing no
occurrence of `--&gt;`. -/
theorem claim7_idempotent_and_noop (x : List Char) :
    applyDeterministicFixes (applyDeterministicFixes x) = applyDeterministicFixes x ∧
    (hasPat x = false → applyDeterministicFixes x = x) :=
  ⟨fix_idem x, fun h => noop x h⟩

/-- Witness for C7 at a concrete defect-free input. -/
theorem claim7_witness :
    hasPat ('A' :: ' ' :: []) = false ∧
    applyDeterministicFixes ('A' :: ' ' :: []) = 'A' :: ' ' :: [] :=
  ⟨by decide, (claim7_idempotent_and_noop ('A' :: ' ' :: [])).2 (by decide)⟩

end MermaidFixer
